import Mathlib

/-!
Verification of the span-to-source-region translation of
`kani-compiler/src/codegen_cprover_gotoc/codegen/source_region.rs`.

The translation converts a half-open byte-offset span inside a source file
into a 1-based line/column rectangle (`SourceRegion`) for a coverage
consumer.  Machine integers are modelled as `Nat`; the `as u32` narrowing
performed when the region is constructed is modelled by an explicit
`% 2 ^ 32`.  The external `rustc_span` collaborators (`Span`, `SourceFile`,
`SourceMap`) are modelled by their documented contracts: a span is a pair
of byte offsets, a source file carries its bytes, its line-start table and
its start offset, and a source map provides byte access to the file's text
and the per-file doctest line-offset function.
-/

/-- A source region: four 1-based line/column coordinates.  In the source
these fields are `u32`; here they are `Nat`, and the narrowing to 32 bits is
applied explicitly where the source performs `as u32`. -/
structure SourceRegion where
  start_line : Nat
  start_col : Nat
  end_line : Nat
  end_col : Nat
deriving DecidableEq, Repr

/-- A span: a half-open byte-offset range `[lo, hi)` inside one source file.
Models `rustc_span::Span` restricted to the operations the translation
uses. -/
structure Span where
  lo : Nat
  hi : Nat
deriving DecidableEq, Repr

/-- A span is empty when it covers zero bytes. -/
def Span.is_empty (s : Span) : Bool := decide (s.hi = s.lo)

/-- Replace the upper bound of a span, keeping the lower bound. -/
def Span.with_hi (s : Span) (h : Nat) : Span := ⟨s.lo, h⟩

/-- Replace the lower bound of a span, keeping the upper bound. -/
def Span.with_lo (s : Span) (l : Nat) : Span := ⟨l, s.hi⟩

/-- A source file: its identity (`name`), the absolute byte offset at which
it starts, its raw bytes, and its ordered table of file-relative line-start
offsets.  Models the parts of `rustc_span::SourceFile` the translation
reads. -/
structure SourceFile where
  name : Nat
  start_pos : Nat
  src : List Nat
  lines : List Nat
deriving DecidableEq, Repr

/-- Convert an absolute byte position to a file-relative one. -/
def SourceFile.relative_position (f : SourceFile) (pos : Nat) : Nat :=
  pos - f.start_pos

/-- Index of the line containing a file-relative position: one less than the
number of line starts not exceeding the position, or nothing when every line
start exceeds it.  Models `SourceFile::lookup_line`, i.e.
`lines.partition_point(|x| x <= pos).checked_sub(1)` on a sorted table. -/
def SourceFile.lookup_line (f : SourceFile) (rpos : Nat) : Option Nat :=
  let k := f.lines.countP (fun s => decide (s ≤ rpos))
  if k = 0 then none else some (k - 1)

/-- A source map: the file the span lives in, plus the per-file doctest
line-offset function `doctest_offset_line` (keyed by file name). -/
structure SourceMap where
  file : SourceFile
  doctest_offset : Nat → Nat → Nat

/-- Run a function over the file's source text together with the
file-relative offsets of the span's bounds; fails when the span does not lie
inside the file.  Models `SourceMap::span_to_source`. -/
def SourceMap.span_to_source {α : Type} (sm : SourceMap) (span : Span)
    (f : List Nat → Nat → Nat → α) : Option α :=
  if sm.file.start_pos ≤ span.lo ∧ span.lo ≤ span.hi ∧
      span.hi ≤ sm.file.start_pos + sm.file.src.length then
    some (f sm.file.src (span.lo - sm.file.start_pos) (span.hi - sm.file.start_pos))
  else
    none

/-- If the span is empty, try to enlarge it to cover an adjacent opening
brace (byte 123, growing the end forward by one byte) or, failing that, an
adjacent closing brace (byte 125, growing the start backward by one byte);
give up when neither brace is adjacent.  A non-empty span is returned
unchanged. -/
def ensure_non_empty_span (source_map : SourceMap) (span : Span) : Option Span :=
  if span.is_empty = false then
    some span
  else
    Option.join (source_map.span_to_source span (fun src start stop =>
      if src[stop]? = some 123 then
        some (span.with_hi (span.hi + 1))
      else if 0 < start ∧ src.getD (start - 1) 0 = 125 then
        some (span.with_lo (span.lo - 1))
      else
        none))

/-- Discard a source region that is improperly ordered or would be
misinterpreted by `llvm-cov`: all four fields must be non-zero, the high bit
(bit 31) of `end_col` must be unset, and the start must not exceed the end
under lexicographic order on (line, column). -/
def check_source_region (source_region : SourceRegion) : Option SourceRegion :=
  if (source_region.start_line ≠ 0 ∧ source_region.start_col ≠ 0 ∧
        source_region.end_line ≠ 0 ∧ source_region.end_col ≠ 0) ∧
      source_region.end_col &&& 2 ^ 31 = 0 ∧
      (source_region.start_line < source_region.end_line ∨
        (source_region.start_line = source_region.end_line ∧
          source_region.start_col ≤ source_region.end_col)) then
    some source_region
  else
    none

/-- Resolve an absolute byte position to its 1-based (line, byte column)
pair using the file's line-start table.  Models the local closure
`line_and_byte_column` of `make_source_region`. -/
def line_and_byte_column (file : SourceFile) (pos : Nat) : Option (Nat × Nat) :=
  let rpos := file.relative_position pos
  match file.lookup_line rpos with
  | none => none
  | some line_index =>
    let line_start := file.lines.getD line_index 0
    some (line_index + 1, (rpos - line_start) + 1)

/-- Convert a span into a validated source region: expand an empty span,
resolve both bounds to line/column pairs, apply the doctest line offset to
both line numbers, narrow every coordinate to 32 bits (the source's
`as u32`), and validate the result. -/
def make_source_region (source_map : SourceMap) (file : SourceFile) (span : Span) :
    Option SourceRegion :=
  (ensure_non_empty_span source_map span).bind (fun sp =>
    (line_and_byte_column file sp.lo).bind (fun p =>
      (line_and_byte_column file sp.hi).bind (fun q =>
        check_source_region
          ⟨source_map.doctest_offset file.name p.1 % 2 ^ 32,
           p.2 % 2 ^ 32,
           source_map.doctest_offset file.name q.1 % 2 ^ 32,
           q.2 % 2 ^ 32⟩)))

/-! ### Concrete files and maps used as witnesses -/

/-- Three-byte file "abc" starting at offset 0, one line. -/
def fileA : SourceFile := ⟨0, 0, [97, 98, 99], [0]⟩

/-- Source map over `fileA` with the identity doctest offset. -/
def smA : SourceMap := ⟨fileA, fun _ l => l⟩

/-- Four-byte file "ab{}" starting at offset 0, one line. -/
def fileB : SourceFile := ⟨0, 0, [97, 98, 123, 125], [0]⟩

/-- Source map over `fileB` with the identity doctest offset. -/
def smB : SourceMap := ⟨fileB, fun _ l => l⟩

/-- The example file of the spec: line-start table `[0, 10, 25]`. -/
def fileC : SourceFile := ⟨0, 0, [], [0, 10, 25]⟩

/-- Source map over `fileA` whose doctest offset shifts lines by 5. -/
def smOff : SourceMap := ⟨fileA, fun _ l => l + 5⟩

/-- Source map over `fileA` whose doctest offset pushes lines past `2 ^ 32`,
so that the `as u32` narrowing genuinely wraps. -/
def smWrap : SourceMap := ⟨fileA, fun _ l => l + 2 ^ 32⟩

/-! ### Helper lemmas -/

/-- `check_source_region` succeeds exactly on regions satisfying the three
structural invariants, and then returns the region unchanged. -/
lemma check_source_region_eq_some_iff (R r : SourceRegion) :
    check_source_region R = some r ↔
      ((R.start_line ≠ 0 ∧ R.start_col ≠ 0 ∧ R.end_line ≠ 0 ∧ R.end_col ≠ 0) ∧
        R.end_col &&& 2 ^ 31 = 0 ∧
        (R.start_line < R.end_line ∨
          (R.start_line = R.end_line ∧ R.start_col ≤ R.end_col))) ∧ R = r := by
  unfold check_source_region
  split
  · simp_all
  · simp_all

/-- Inversion of the orchestration: a produced region comes from a
successful expansion, two successful position resolutions, and a successful
validation of the narrowed, doctest-adjusted coordinates. -/
lemma make_source_region_inv (sm : SourceMap) (file : SourceFile) (span : Span)
    (r : SourceRegion) (h : make_source_region sm file span = some r) :
    ∃ sp sl0 sc el0 ec,
      ensure_non_empty_span sm span = some sp ∧
      line_and_byte_column file sp.lo = some (sl0, sc) ∧
      line_and_byte_column file sp.hi = some (el0, ec) ∧
      check_source_region
        ⟨sm.doctest_offset file.name sl0 % 2 ^ 32, sc % 2 ^ 32,
         sm.doctest_offset file.name el0 % 2 ^ 32, ec % 2 ^ 32⟩ = some r := by
  unfold make_source_region at h
  rw [Option.bind_eq_some] at h
  obtain ⟨sp, he, h⟩ := h
  rw [Option.bind_eq_some] at h
  obtain ⟨p, h1, h⟩ := h
  rw [Option.bind_eq_some] at h
  obtain ⟨q, h2, h⟩ := h
  exact ⟨sp, p.1, p.2, q.1, q.2, he, h1, h2, h⟩

/-- Unfolding of the orchestration along given stage results. -/
lemma make_source_region_unfold (sm : SourceMap) (file : SourceFile) (span sp : Span)
    (sl0 sc el0 ec : Nat)
    (he : ensure_non_empty_span sm span = some sp)
    (h1 : line_and_byte_column file sp.lo = some (sl0, sc))
    (h2 : line_and_byte_column file sp.hi = some (el0, ec)) :
    make_source_region sm file span =
      check_source_region
        ⟨sm.doctest_offset file.name sl0 % 2 ^ 32, sc % 2 ^ 32,
         sm.doctest_offset file.name el0 % 2 ^ 32, ec % 2 ^ 32⟩ := by
  unfold make_source_region
  rw [he, Option.some_bind', h1, Option.some_bind', h2, Option.some_bind']

/-- In a list sorted by `≤`, the entries not exceeding `x` are exactly the
first `countP (· ≤ x)` entries. -/
lemma sorted_getD_le_iff (l : List Nat) (x : Nat) (hs : List.Sorted (· ≤ ·) l) :
    ∀ j, j < l.length → (l.getD j 0 ≤ x ↔ j < l.countP (fun s => decide (s ≤ x))) := by
  induction l with
  | nil => intro j hj; simp at hj
  | cons a t ih =>
    rw [List.sorted_cons] at hs
    obtain ⟨ha, ht⟩ := hs
    have hcount : (a :: t).countP (fun s => decide (s ≤ x)) =
        t.countP (fun s => decide (s ≤ x)) + if a ≤ x then 1 else 0 := by
      rw [List.countP_cons]
      by_cases hax : a ≤ x <;> simp [hax]
    intro j hj
    by_cases hax : a ≤ x
    · cases j with
      | zero => simp [hcount, hax]
      | succ j =>
        have hj' : j < t.length := by simpa using hj
        have := ih ht j hj'
        simp only [List.getD_cons_succ, hcount, hax, if_pos]
        omega
    · have hzero : t.countP (fun s => decide (s ≤ x)) = 0 := by
        rw [List.countP_eq_zero]
        intro b hb
        simp only [decide_eq_true_eq]
        intro hbx
        exact hax (le_trans (ha b hb) hbx)
      cases j with
      | zero => simp [hcount, hax, hzero]
      | succ j =>
        have hj' : j < t.length := by simpa using hj
        have hmem : t.getD j 0 ∈ t := by
          rw [List.getD_eq_getElem _ _ hj']
          exact List.getElem_mem hj'
        rw [List.getD_cons_succ, hcount, if_neg hax, hzero]
        constructor
        · intro h
          exact absurd (le_trans (ha _ hmem) h) hax
        · intro h
          omega

/-- Counting entries `≤ x + 1` equals counting entries `≤ x` when `x + 1`
itself is not in the list. -/
lemma countP_le_succ_of_not_mem (l : List Nat) (x : Nat) (h : (x + 1) ∉ l) :
    l.countP (fun s => decide (s ≤ x + 1)) = l.countP (fun s => decide (s ≤ x)) := by
  induction l with
  | nil => rfl
  | cons a t ih =>
    rw [List.mem_cons, not_or] at h
    rw [List.countP_cons, List.countP_cons, ih h.2]
    have hne : ¬ x + 1 = a := h.1
    have : (decide (a ≤ x + 1)) = (decide (a ≤ x)) := by
      rw [decide_eq_decide]
      omega
    rw [this]

/-- Characterization of the position resolver: it succeeds exactly when some
line start does not exceed the relative position, and then returns line
`k` and the column relative to line start number `k - 1`, where `k` is the
number of line starts not exceeding the position. -/
lemma line_and_byte_column_eq_some_iff (file : SourceFile) (pos : Nat) (l c : Nat) :
    line_and_byte_column file pos = some (l, c) ↔
      (file.lines.countP (fun s => decide (s ≤ pos - file.start_pos)) ≠ 0 ∧
        l = file.lines.countP (fun s => decide (s ≤ pos - file.start_pos)) ∧
        c = ((pos - file.start_pos) -
          file.lines.getD
            (file.lines.countP (fun s => decide (s ≤ pos - file.start_pos)) - 1) 0) + 1) := by
  by_cases hk : file.lines.countP (fun s => decide (s ≤ pos - file.start_pos)) = 0
  · simp [line_and_byte_column, SourceFile.lookup_line, SourceFile.relative_position, hk]
  · constructor
    · intro h
      simp [line_and_byte_column, SourceFile.lookup_line, SourceFile.relative_position,
        hk] at h
      rw [← List.getD_eq_getElem?_getD] at h
      exact ⟨hk, by omega, by omega⟩
    · rintro ⟨-, hl, hc⟩
      simp [line_and_byte_column, SourceFile.lookup_line, SourceFile.relative_position, hk]
      rw [← List.getD_eq_getElem?_getD]
      exact ⟨by omega, by omega⟩

/-- Inversion of the empty-span expander: success means either the span was
already non-empty and is unchanged, or it was empty, lay inside the file,
and was grown by exactly one byte towards an adjacent brace. -/
lemma ensure_non_empty_span_eq_some (sm : SourceMap) (span sp : Span)
    (h : ensure_non_empty_span sm span = some sp) :
    (span.hi ≠ span.lo ∧ sp = span) ∨
    (span.hi = span.lo ∧ sm.file.start_pos ≤ span.lo ∧
      span.hi ≤ sm.file.start_pos + sm.file.src.length ∧
      ((sm.file.src[span.hi - sm.file.start_pos]? = some 123 ∧
          span.hi - sm.file.start_pos < sm.file.src.length ∧
          sp = span.with_hi (span.hi + 1)) ∨
        (sm.file.src[span.hi - sm.file.start_pos]? ≠ some 123 ∧
          0 < span.lo - sm.file.start_pos ∧
          sm.file.src.getD (span.lo - sm.file.start_pos - 1) 0 = 125 ∧
          sp = span.with_lo (span.lo - 1)))) := by
  unfold ensure_non_empty_span at h
  by_cases hemp : span.hi = span.lo
  · right
    rw [if_neg (by simp [Span.is_empty, hemp])] at h
    unfold SourceMap.span_to_source at h
    by_cases hg : sm.file.start_pos ≤ span.lo ∧ span.lo ≤ span.hi ∧
        span.hi ≤ sm.file.start_pos + sm.file.src.length
    · rw [if_pos hg] at h
      beta_reduce at h
      refine ⟨hemp, hg.1, hg.2.2, ?_⟩
      by_cases h1 : sm.file.src[span.hi - sm.file.start_pos]? = some 123
      · left
        rw [if_pos h1] at h
        have hlt : span.hi - sm.file.start_pos < sm.file.src.length := by
          by_contra hge
          rw [List.getElem?_eq_none (by omega)] at h1
          simp at h1
        simp only [Option.join] at h
        exact ⟨h1, hlt, by simpa using h.symm⟩
      · right
        rw [if_neg h1] at h
        by_cases h2 : 0 < span.lo - sm.file.start_pos ∧
            sm.file.src.getD (span.lo - sm.file.start_pos - 1) 0 = 125
        · rw [if_pos h2] at h
          simp only [Option.join] at h
          exact ⟨h1, h2.1, h2.2, by simpa using h.symm⟩
        · rw [if_neg h2] at h
          simp [Option.join] at h
    · rw [if_neg hg] at h
      simp [Option.join] at h
  · left
    rw [if_pos (by simp [Span.is_empty, hemp])] at h
    exact ⟨hemp, by simpa using h.symm⟩

/-- Columns produced by the position resolver never exceed the relative
position plus one. -/
lemma line_and_byte_column_col_le (file : SourceFile) (pos l c : Nat)
    (h : line_and_byte_column file pos = some (l, c)) :
    c ≤ (pos - file.start_pos) + 1 := by
  rw [line_and_byte_column_eq_some_iff] at h
  omega

/-! ### Claims -/

/-- C1: every `SourceRegion` returned by `make_source_region` has all four
fields non-zero, has bit 31 of `end_col` unset, and is lexicographically
ordered: `(start_line, start_col) <= (end_line, end_col)`. -/
theorem c1_emitted_region_invariants (sm : SourceMap) (file : SourceFile) (span : Span)
    (r : SourceRegion) (h : make_source_region sm file span = some r) :
    (r.start_line ≠ 0 ∧ r.start_col ≠ 0 ∧ r.end_line ≠ 0 ∧ r.end_col ≠ 0) ∧
    r.end_col &&& 2 ^ 31 = 0 ∧
    (r.start_line < r.end_line ∨
      (r.start_line = r.end_line ∧ r.start_col ≤ r.end_col)) := by
  obtain ⟨sp, sl0, sc, el0, ec, _, _, _, hc⟩ := make_source_region_inv sm file span r h
  rw [check_source_region_eq_some_iff] at hc
  obtain ⟨hinv, heq⟩ := hc
  rw [← heq]
  exact hinv

/-- C1 witness: the one-line file "abc" with span `[0, 2)` produces the
region 1:1-1:3, which satisfies all three invariants. -/
theorem c1_witness :
    make_source_region smA fileA ⟨0, 2⟩ = some ⟨1, 1, 1, 3⟩ ∧
    (((⟨1, 1, 1, 3⟩ : SourceRegion).start_line ≠ 0 ∧
        (⟨1, 1, 1, 3⟩ : SourceRegion).start_col ≠ 0 ∧
        (⟨1, 1, 1, 3⟩ : SourceRegion).end_line ≠ 0 ∧
        (⟨1, 1, 1, 3⟩ : SourceRegion).end_col ≠ 0) ∧
      (⟨1, 1, 1, 3⟩ : SourceRegion).end_col &&& 2 ^ 31 = 0 ∧
      ((⟨1, 1, 1, 3⟩ : SourceRegion).start_line < (⟨1, 1, 1, 3⟩ : SourceRegion).end_line ∨
        ((⟨1, 1, 1, 3⟩ : SourceRegion).start_line = (⟨1, 1, 1, 3⟩ : SourceRegion).end_line ∧
          (⟨1, 1, 1, 3⟩ : SourceRegion).start_col ≤ (⟨1, 1, 1, 3⟩ : SourceRegion).end_col))) :=
  ⟨by decide, c1_emitted_region_invariants smA fileA ⟨0, 2⟩ ⟨1, 1, 1, 3⟩ (by decide)⟩

/-- C2: the validator returns the given region unchanged exactly when the
three invariants hold and returns nothing exactly when they fail, and any
region with `start_line = 0` is rejected whatever its other fields are. -/
theorem c2_validator_characterization (r : SourceRegion) :
    (check_source_region r = none ∨ check_source_region r = some r) ∧
    (check_source_region r = some r ↔
      ((r.start_line ≠ 0 ∧ r.start_col ≠ 0 ∧ r.end_line ≠ 0 ∧ r.end_col ≠ 0) ∧
        r.end_col &&& 2 ^ 31 = 0 ∧
        (r.start_line < r.end_line ∨
          (r.start_line = r.end_line ∧ r.start_col ≤ r.end_col)))) ∧
    (check_source_region r = none ↔
      ¬ ((r.start_line ≠ 0 ∧ r.start_col ≠ 0 ∧ r.end_line ≠ 0 ∧ r.end_col ≠ 0) ∧
        r.end_col &&& 2 ^ 31 = 0 ∧
        (r.start_line < r.end_line ∨
          (r.start_line = r.end_line ∧ r.start_col ≤ r.end_col)))) ∧
    (∀ b c d : Nat, check_source_region ⟨0, b, c, d⟩ = none) := by
  refine ⟨?_, ?_, ?_, ?_⟩
  · unfold check_source_region
    split
    · right; rfl
    · left; rfl
  · unfold check_source_region
    split
    · simp_all
    · simp_all
  · unfold check_source_region
    split
    · simp_all
    · simp_all
  · intro b c d
    simp [check_source_region]

/-- C6: a span that already covers at least one byte is returned unchanged
by the empty-span expander. -/
theorem c6_non_empty_span_unchanged (sm : SourceMap) (span : Span)
    (h : span.hi ≠ span.lo) :
    ensure_non_empty_span sm span = some span := by
  unfold ensure_non_empty_span
  rw [if_pos (by simp [Span.is_empty, h])]

/-- C6 witness: the non-empty span `[0, 2)` is returned unchanged. -/
theorem c6_witness : ensure_non_empty_span smA ⟨0, 2⟩ = some ⟨0, 2⟩ :=
  c6_non_empty_span_unchanged smA ⟨0, 2⟩ (by decide)

/-- C9: the translation is deterministic: equal source maps, files and
spans produce equal results. -/
theorem c9_deterministic (sm1 sm2 : SourceMap) (f1 f2 : SourceFile) (s1 s2 : Span)
    (hsm : sm1 = sm2) (hf : f1 = f2) (hs : s1 = s2) :
    make_source_region sm1 f1 s1 = make_source_region sm2 f2 s2 := by
  rw [hsm, hf, hs]

/-- C9 witness: translating the span `[0, 2)` of the file "abc" twice gives
the same result. -/
theorem c9_witness :
    make_source_region smA fileA ⟨0, 2⟩ = make_source_region smA fileA ⟨0, 2⟩ :=
  c9_deterministic smA smA fileA fileA ⟨0, 2⟩ ⟨0, 2⟩ rfl rfl rfl

/-- C7: on a sorted line-start table the resolver returns one plus the index
of the line whose start is the greatest not exceeding the relative position,
and the relative position minus that start plus one, failing when every line
start exceeds the position; on the table `[0, 10, 25]`, positions 12 and 18
resolve to (2, 3) and (2, 9). -/
theorem c7_position_resolver (file : SourceFile) (pos : Nat)
    (hs : List.Sorted (· ≤ ·) file.lines) :
    (∀ l c, line_and_byte_column file pos = some (l, c) →
        ∃ i, i < file.lines.length ∧ l = i + 1 ∧
          file.lines.getD i 0 ≤ file.relative_position pos ∧
          (∀ j, j < file.lines.length →
            file.lines.getD j 0 ≤ file.relative_position pos → j ≤ i) ∧
          c = (file.relative_position pos - file.lines.getD i 0) + 1) ∧
    ((∀ s ∈ file.lines, file.relative_position pos < s) →
      line_and_byte_column file pos = none) ∧
    (line_and_byte_column fileC 12 = some (2, 3) ∧
      line_and_byte_column fileC 18 = some (2, 9)) := by
  refine ⟨?_, ?_, by decide, by decide⟩
  · intro l c h
    rw [line_and_byte_column_eq_some_iff] at h
    obtain ⟨hk, hl, hc⟩ := h
    have hlen : file.lines.countP (fun s => decide (s ≤ pos - file.start_pos)) ≤
        file.lines.length := List.countP_le_length _
    refine ⟨file.lines.countP (fun s => decide (s ≤ pos - file.start_pos)) - 1,
      by omega, by omega, ?_, ?_, ?_⟩
    · exact (sorted_getD_le_iff file.lines (pos - file.start_pos) hs _ (by omega)).mpr
        (by omega)
    · intro j hj hle
      have := (sorted_getD_le_iff file.lines (pos - file.start_pos) hs j hj).mp hle
      omega
    · exact hc
  · intro hall
    have hzero : file.lines.countP (fun s => decide (s ≤ pos - file.start_pos)) = 0 := by
      rw [List.countP_eq_zero]
      intro s hsmem
      simpa using Nat.not_le.mpr (hall s hsmem)
    simp [line_and_byte_column, SourceFile.lookup_line, SourceFile.relative_position, hzero]

/-- C7 witness: the spec's example resolves as stated. -/
theorem c7_witness :
    line_and_byte_column fileC 12 = some (2, 3) ∧
    line_and_byte_column fileC 18 = some (2, 9) :=
  ⟨(c7_position_resolver fileC 12 (by decide)).2.2.1,
   (c7_position_resolver fileC 18 (by decide)).2.2.2⟩

/-- C10: the coordinates handed to validation are the computed values
narrowed modulo `2 ^ 32`; the doctest-adjusted line values and the resolved
column values are truncated by `as u32` before `check_source_region` sees
them, so a value `v >= 2 ^ 32` is presented as `v % 2 ^ 32`. -/
theorem c10_narrowing_mod_2_pow_32 (sm : SourceMap) (file : SourceFile) (span sp : Span)
    (sl0 sc el0 ec : Nat)
    (he : ensure_non_empty_span sm span = some sp)
    (h1 : line_and_byte_column file sp.lo = some (sl0, sc))
    (h2 : line_and_byte_column file sp.hi = some (el0, ec)) :
    make_source_region sm file span =
      check_source_region
        ⟨sm.doctest_offset file.name sl0 % 2 ^ 32, sc % 2 ^ 32,
         sm.doctest_offset file.name el0 % 2 ^ 32, ec % 2 ^ 32⟩ :=
  make_source_region_unfold sm file span sp sl0 sc el0 ec he h1 h2

/-- C10 witness: with a doctest offset pushing line 1 to `1 + 2 ^ 32`, the
computed start line is at least `2 ^ 32`, wraps to 1, and the wrapped region
passes validation and is emitted. -/
theorem c10_witness :
    make_source_region smWrap fileA ⟨0, 2⟩ =
      check_source_region
        ⟨smWrap.doctest_offset fileA.name 1 % 2 ^ 32, 1 % 2 ^ 32,
         smWrap.doctest_offset fileA.name 1 % 2 ^ 32, 3 % 2 ^ 32⟩ ∧
    make_source_region smWrap fileA ⟨0, 2⟩ = some ⟨1, 1, 1, 3⟩ ∧
    2 ^ 32 ≤ smWrap.doctest_offset fileA.name 1 ∧
    smWrap.doctest_offset fileA.name 1 % 2 ^ 32 ≠ smWrap.doctest_offset fileA.name 1 :=
  ⟨c10_narrowing_mod_2_pow_32 smWrap fileA ⟨0, 2⟩ ⟨0, 2⟩ 1 1 1 3
      (by decide) (by decide) (by decide),
   by decide, by decide, by decide⟩

/-- C5: an empty span with no adjacent brace (the byte after the span is not
an opening brace, and either the span starts at the file's start so there is
no preceding byte, or the preceding byte is not a closing brace) makes the
whole translation yield nothing. -/
theorem c5_no_adjacency_yields_none (sm : SourceMap) (file : SourceFile) (span : Span)
    (hempty : span.hi = span.lo)
    (hopen : sm.file.src[span.hi - sm.file.start_pos]? ≠ some 123)
    (hclose : span.lo ≤ sm.file.start_pos ∨
      sm.file.src.getD (span.lo - sm.file.start_pos - 1) 0 ≠ 125) :
    make_source_region sm file span = none := by
  have he : ensure_non_empty_span sm span = none := by
    unfold ensure_non_empty_span
    rw [if_neg (by simp [Span.is_empty, hempty])]
    unfold SourceMap.span_to_source
    by_cases hg : sm.file.start_pos ≤ span.lo ∧ span.lo ≤ span.hi ∧
        span.hi ≤ sm.file.start_pos + sm.file.src.length
    · rw [if_pos hg]
      beta_reduce
      rw [if_neg hopen]
      rw [if_neg ?_]
      · rfl
      · rcases hclose with hc | hc
        · intro hcontra
          omega
        · intro hcontra
          exact hc hcontra.2
    · rw [if_neg hg]
      rfl
  unfold make_source_region
  rw [he]
  rfl

/-- C5 witness: the empty span at offset 1 of "ab\x7b\x7d" sits between the
bytes 'a' and 'b', so translation yields nothing. -/
theorem c5_witness : make_source_region smB fileB ⟨1, 1⟩ = none :=
  c5_no_adjacency_yields_none smB fileB ⟨1, 1⟩ (by decide) (by decide)
    (Or.inr (by decide))

/-- Growing the end of a span keeps its start. -/
lemma Span.with_hi_lo (s : Span) (h : Nat) : (s.with_hi h).lo = s.lo := rfl

/-- Growing the end of a span sets its end. -/
lemma Span.with_hi_hi (s : Span) (h : Nat) : (s.with_hi h).hi = h := rfl

/-- Growing the start of a span sets its start. -/
lemma Span.with_lo_lo (s : Span) (l : Nat) : (s.with_lo l).lo = l := rfl

/-- Growing the start of a span keeps its end. -/
lemma Span.with_lo_hi (s : Span) (l : Nat) : (s.with_lo l).hi = s.hi := rfl

/-- C3: an empty span lying in the file and immediately followed by an
opening brace is grown by exactly one byte forward (start unchanged), and
any region then emitted has its end column exactly one greater than its
start column.  The file is well formed: its line-start table is sorted and
every line start other than 0 follows a newline byte. -/
theorem c3_empty_span_before_open_brace (sm : SourceMap) (file : SourceFile) (span : Span)
    (hfile : sm.file = file)
    (hempty : span.hi = span.lo)
    (hstart : file.start_pos ≤ span.lo)
    (hbrace : file.src[span.lo - file.start_pos]? = some 123)
    (hsorted : List.Sorted (· ≤ ·) file.lines)
    (hnl : ∀ s ∈ file.lines, s ≠ 0 → file.src[s - 1]? = some 10) :
    ensure_non_empty_span sm span = some (span.with_hi (span.hi + 1)) ∧
    ∀ r, make_source_region sm file span = some r →
      r.end_col = r.start_col + 1 ∧ r.start_col < r.end_col := by
  have hlt : span.lo - file.start_pos < file.src.length := by
    by_contra hge
    rw [List.getElem?_eq_none (by omega)] at hbrace
    simp at hbrace
  have he : ensure_non_empty_span sm span = some (span.with_hi (span.hi + 1)) := by
    unfold ensure_non_empty_span
    rw [if_neg (by simp [Span.is_empty, hempty])]
    unfold SourceMap.span_to_source
    rw [if_pos (by rw [hfile]; omega)]
    beta_reduce
    rw [hfile, show span.hi - file.start_pos = span.lo - file.start_pos by omega,
      if_pos hbrace]
    rfl
  refine ⟨he, ?_⟩
  intro r hr
  obtain ⟨sp, sl0, sc, el0, ec, he', h1, h2, hc⟩ := make_source_region_inv sm file span r hr
  rw [he] at he'
  have hsp : sp = span.with_hi (span.hi + 1) := Option.some_inj.mp he'.symm
  subst hsp
  rw [Span.with_hi_lo] at h1
  rw [Span.with_hi_hi] at h2
  rw [line_and_byte_column_eq_some_iff] at h1 h2
  obtain ⟨hk1, hl1, hc1⟩ := h1
  obtain ⟨hk2, hl2, hc2⟩ := h2
  have hrel2 : span.hi + 1 - file.start_pos = (span.lo - file.start_pos) + 1 := by omega
  simp only [hrel2] at hk2 hl2 hc2
  have hnot : (span.lo - file.start_pos + 1) ∉ file.lines := by
    intro hmem
    have h10 := hnl _ hmem (by omega)
    rw [Nat.add_sub_cancel, hbrace] at h10
    simp at h10
  have hkeq := countP_le_succ_of_not_mem file.lines (span.lo - file.start_pos) hnot
  simp only [hkeq] at hk2 hl2 hc2
  have hkl : file.lines.countP (fun s => decide (s ≤ span.lo - file.start_pos)) ≤
      file.lines.length := List.countP_le_length _
  have hglek : file.lines.getD
      (file.lines.countP (fun s => decide (s ≤ span.lo - file.start_pos)) - 1) 0 ≤
      span.lo - file.start_pos :=
    (sorted_getD_le_iff file.lines (span.lo - file.start_pos) hsorted _ (by omega)).mpr
      (by omega)
  rw [check_source_region_eq_some_iff] at hc
  obtain ⟨hinv, heq⟩ := hc
  have hrs : r.start_col = sc % 2 ^ 32 := by rw [← heq]
  have hre : r.end_col = ec % 2 ^ 32 := by rw [← heq]
  have hecnz : ec % 2 ^ 32 ≠ 0 := hinv.1.2.2.2
  refine ⟨?_, ?_⟩ <;> rw [hrs, hre] <;> omega

/-- C3 witness: the empty span at offset 2 of "ab\x7b\x7d" is followed by
the opening brace, grows to `[2, 3)`, and the emitted region 1:3-1:4 has end
column one greater than start column. -/
theorem c3_witness :
    ensure_non_empty_span smB ⟨2, 2⟩ = some ((⟨2, 2⟩ : Span).with_hi 3) ∧
    make_source_region smB fileB ⟨2, 2⟩ = some ⟨1, 3, 1, 4⟩ ∧
    (⟨1, 3, 1, 4⟩ : SourceRegion).end_col = (⟨1, 3, 1, 4⟩ : SourceRegion).start_col + 1 :=
  ⟨(c3_empty_span_before_open_brace smB fileB ⟨2, 2⟩ rfl rfl (by decide) (by decide)
      (by decide) (by decide)).1,
   by decide,
   ((c3_empty_span_before_open_brace smB fileB ⟨2, 2⟩ rfl rfl (by decide) (by decide)
      (by decide) (by decide)).2 ⟨1, 3, 1, 4⟩ (by decide)).1⟩

/-- C4: an empty span lying in the file, not at the file's start, not
immediately followed by an opening brace but immediately preceded by a
closing brace, is grown by exactly one byte backward (end unchanged), and
any region then emitted has its start column exactly one less than its end
column.  The file is well formed: its line-start table is sorted and every
line start other than 0 follows a newline byte. -/
theorem c4_empty_span_after_close_brace (sm : SourceMap) (file : SourceFile) (span : Span)
    (hfile : sm.file = file)
    (hempty : span.hi = span.lo)
    (hstart : file.start_pos < span.lo)
    (hbound : span.hi ≤ file.start_pos + file.src.length)
    (hopen : file.src[span.hi - file.start_pos]? ≠ some 123)
    (hclose : file.src[span.lo - file.start_pos - 1]? = some 125)
    (hsorted : List.Sorted (· ≤ ·) file.lines)
    (hnl : ∀ s ∈ file.lines, s ≠ 0 → file.src[s - 1]? = some 10) :
    ensure_non_empty_span sm span = some (span.with_lo (span.lo - 1)) ∧
    ∀ r, make_source_region sm file span = some r →
      r.start_col + 1 = r.end_col ∧ r.start_col < r.end_col := by
  have he : ensure_non_empty_span sm span = some (span.with_lo (span.lo - 1)) := by
    unfold ensure_non_empty_span
    rw [if_neg (by simp [Span.is_empty, hempty])]
    unfold SourceMap.span_to_source
    rw [if_pos (by rw [hfile]; omega)]
    beta_reduce
    rw [hfile, if_neg hopen,
      if_pos ⟨by omega, by rw [List.getD_eq_getElem?_getD, hclose]; rfl⟩]
    rfl
  refine ⟨he, ?_⟩
  intro r hr
  obtain ⟨sp, sl0, sc, el0, ec, he', h1, h2, hc⟩ := make_source_region_inv sm file span r hr
  rw [he] at he'
  have hsp : sp = span.with_lo (span.lo - 1) := Option.some_inj.mp he'.symm
  subst hsp
  rw [Span.with_lo_lo] at h1
  rw [Span.with_lo_hi] at h2
  rw [line_and_byte_column_eq_some_iff] at h1 h2
  obtain ⟨hk1, hl1, hc1⟩ := h1
  obtain ⟨hk2, hl2, hc2⟩ := h2
  have hrel1 : span.lo - 1 - file.start_pos = (span.lo - file.start_pos) - 1 := by omega
  simp only [hrel1] at hk1 hl1 hc1
  have hrel2 : span.hi - file.start_pos = ((span.lo - file.start_pos) - 1) + 1 := by omega
  simp only [hrel2] at hk2 hl2 hc2
  have hnot : ((span.lo - file.start_pos) - 1 + 1) ∉ file.lines := by
    intro hmem
    have h10 := hnl _ hmem (by omega)
    rw [Nat.add_sub_cancel, show span.lo - file.start_pos - 1 = span.lo - file.start_pos - 1
      from rfl, hclose] at h10
    simp at h10
  have hkeq := countP_le_succ_of_not_mem file.lines ((span.lo - file.start_pos) - 1) hnot
  simp only [hkeq] at hk2 hl2 hc2
  have hkl : file.lines.countP (fun s => decide (s ≤ span.lo - file.start_pos - 1)) ≤
      file.lines.length := List.countP_le_length _
  have hglek : file.lines.getD
      (file.lines.countP (fun s => decide (s ≤ span.lo - file.start_pos - 1)) - 1) 0 ≤
      span.lo - file.start_pos - 1 :=
    (sorted_getD_le_iff file.lines (span.lo - file.start_pos - 1) hsorted _ (by omega)).mpr
      (by omega)
  rw [check_source_region_eq_some_iff] at hc
  obtain ⟨hinv, heq⟩ := hc
  have hrs : r.start_col = sc % 2 ^ 32 := by rw [← heq]
  have hre : r.end_col = ec % 2 ^ 32 := by rw [← heq]
  have hecnz : ec % 2 ^ 32 ≠ 0 := hinv.1.2.2.2
  refine ⟨?_, ?_⟩ <;> rw [hrs, hre] <;> omega

/-- C4 witness: the empty span at offset 4 of "ab\x7b\x7d" (the end of the
file) is preceded by the closing brace, grows to `[3, 4)`, and the emitted
region 1:4-1:5 has start column one less than end column. -/
theorem c4_witness :
    ensure_non_empty_span smB ⟨4, 4⟩ = some ((⟨4, 4⟩ : Span).with_lo 3) ∧
    make_source_region smB fileB ⟨4, 4⟩ = some ⟨1, 4, 1, 5⟩ ∧
    (⟨1, 4, 1, 5⟩ : SourceRegion).start_col + 1 = (⟨1, 4, 1, 5⟩ : SourceRegion).end_col :=
  ⟨(c4_empty_span_after_close_brace smB fileB ⟨4, 4⟩ rfl rfl (by decide) (by decide)
      (by decide) (by decide) (by decide) (by decide)).1,
   by decide,
   ((c4_empty_span_after_close_brace smB fileB ⟨4, 4⟩ rfl rfl (by decide) (by decide)
      (by decide) (by decide) (by decide) (by decide)).2 ⟨1, 4, 1, 5⟩ (by decide)).1⟩

/-- C8: the doctest step rewrites only the line numbers.  When the span's
offsets are in the 32-bit range of the source's `BytePos` and the file fits
in that range, the emitted region's columns are exactly the values the
position resolver computed, while the lines are the doctest-adjusted
values. -/
theorem c8_doctest_touches_only_lines (sm : SourceMap) (file : SourceFile) (span sp : Span)
    (sl0 sc el0 ec : Nat) (r : SourceRegion)
    (hfile : sm.file = file)
    (hlohi : span.lo ≤ span.hi)
    (hhi : span.hi < 2 ^ 32)
    (hlen : file.start_pos + file.src.length < 2 ^ 32)
    (he : ensure_non_empty_span sm span = some sp)
    (h1 : line_and_byte_column file sp.lo = some (sl0, sc))
    (h2 : line_and_byte_column file sp.hi = some (el0, ec))
    (hr : make_source_region sm file span = some r) :
    r.start_col = sc ∧ r.end_col = ec ∧
    r.start_line = sm.doctest_offset file.name sl0 % 2 ^ 32 ∧
    r.end_line = sm.doctest_offset file.name el0 % 2 ^ 32 := by
  have hb : sp.lo - file.start_pos < 2 ^ 32 ∧ sp.hi - file.start_pos < 2 ^ 32 := by
    rcases ensure_non_empty_span_eq_some sm span sp he with ⟨hne, hsp⟩ |
      ⟨hemp, hle, hbig, ⟨hbr, hlt2, hsp⟩ | ⟨hbr, hpos, hcl, hsp⟩⟩
    · subst hsp
      omega
    · rw [hfile] at hlt2
      subst hsp
      rw [Span.with_hi_lo, Span.with_hi_hi]
      omega
    · subst hsp
      rw [Span.with_lo_lo, Span.with_lo_hi]
      omega
  have hsc := line_and_byte_column_col_le file sp.lo sl0 sc h1
  have hec := line_and_byte_column_col_le file sp.hi el0 ec h2
  rw [make_source_region_unfold sm file span sp sl0 sc el0 ec he h1 h2] at hr
  rw [check_source_region_eq_some_iff] at hr
  obtain ⟨hinv, heq⟩ := hr
  have hscnz : sc % 2 ^ 32 ≠ 0 := hinv.1.2.1
  have hecnz : ec % 2 ^ 32 ≠ 0 := hinv.1.2.2.2
  refine ⟨?_, ?_, ?_, ?_⟩
  · rw [← heq]
    show sc % 2 ^ 32 = sc
    omega
  · rw [← heq]
    show ec % 2 ^ 32 = ec
    omega
  · rw [← heq]
  · rw [← heq]

/-- C8 witness: with a doctest offset of +5 on the file "abc" and span
`[0, 2)`, the emitted region is 6:1-6:3: the lines are the adjusted values
and the columns are exactly the resolver's 1 and 3. -/
theorem c8_witness :
    make_source_region smOff fileA ⟨0, 2⟩ = some ⟨6, 1, 6, 3⟩ ∧
    (⟨6, 1, 6, 3⟩ : SourceRegion).start_col = 1 ∧
    (⟨6, 1, 6, 3⟩ : SourceRegion).end_col = 3 ∧
    (⟨6, 1, 6, 3⟩ : SourceRegion).start_line = smOff.doctest_offset fileA.name 1 % 2 ^ 32 ∧
    (⟨6, 1, 6, 3⟩ : SourceRegion).end_line = smOff.doctest_offset fileA.name 1 % 2 ^ 32 :=
  ⟨by decide,
   (c8_doctest_touches_only_lines smOff fileA ⟨0, 2⟩ ⟨0, 2⟩ 1 1 1 3 ⟨6, 1, 6, 3⟩ rfl
      (by decide) (by decide) (by decide) (by decide) (by decide) (by decide) (by decide)).1,
   (c8_doctest_touches_only_lines smOff fileA ⟨0, 2⟩ ⟨0, 2⟩ 1 1 1 3 ⟨6, 1, 6, 3⟩ rfl
      (by decide) (by decide) (by decide) (by decide) (by decide) (by decide)
      (by decide)).2.1,
   (c8_doctest_touches_only_lines smOff fileA ⟨0, 2⟩ ⟨0, 2⟩ 1 1 1 3 ⟨6, 1, 6, 3⟩ rfl
      (by decide) (by decide) (by decide) (by decide) (by decide) (by decide)
      (by decide)).2.2.1,
   (c8_doctest_touches_only_lines smOff fileA ⟨0, 2⟩ ⟨0, 2⟩ 1 1 1 3 ⟨6, 1, 6, 3⟩ rfl
      (by decide) (by decide) (by decide) (by decide) (by decide) (by decide)
      (by decide)).2.2.2⟩
